import Mathlib

/-!
Verification of the gocryptotrader engine helpers and polling routines
(`engine/helpers.go`, `engine/routines.go`) against their specification.

Currency symbols are modelled as already-normalized (uppercase) strings, as
in the spec's canonical pair representation. Go float64 amounts are modelled
over exact arithmetic (ℚ). Collaborator packages absent from the engine
sources (currency/pair, currency/translation, portfolio) are modelled from
the spec, as marked on each definition.
-/

/-- Modelled from the spec: a CurrencyPair is an ordered pair
(FirstCurrency, SecondCurrency) plus a display Delimiter (spec section 3).
The currency/pair package itself is not part of the engine sources. -/
structure CurrencyPair where
  firstCurrency : String
  secondCurrency : String
  delimiter : String
deriving DecidableEq, Repr

/-- Modelled from the spec: pair construction from two symbols (display
delimiter empty). -/
def NewCurrencyPair (first second : String) : CurrencyPair :=
  ⟨first, second, ""⟩

/-- Modelled from the spec: the two explicit equality modes of spec
section 3 - strict order match when `exact` is true, either-order match
otherwise. The display delimiter never takes part in equality. -/
def CurrencyPair.Equal (c p : CurrencyPair) (exact : Bool) : Bool :=
  (c.firstCurrency == p.firstCurrency && c.secondCurrency == p.secondCurrency)
    || (!exact && c.firstCurrency == p.secondCurrency && c.secondCurrency == p.firstCurrency)

/-- Modelled from the spec: swapping first and second currency
(reversed-quote convention, spec section 4.2 step 5). -/
def CurrencyPair.Swap (c : CurrencyPair) : CurrencyPair :=
  ⟨c.secondCurrency, c.firstCurrency, c.delimiter⟩

/-- Modelled from the spec: membership of a pair in a PairSet under the
equality mode in effect (spec section 3). -/
def Pair.Contains (pairs : List CurrencyPair) (p : CurrencyPair) (exact : Bool) : Bool :=
  pairs.any (fun q => q.Equal p exact)

/-- Modelled from the spec: whether either currency of the pair is the given
symbol (used by the stablecoin exclusion filter, spec glossary). -/
def Pair.ContainsCurrency (p : CurrencyPair) (c : String) : Bool :=
  p.firstCurrency == c || p.secondCurrency == c

/-- Modelled from the spec: drops every pair containing the filter symbol
(spec section 4.2 step 6, stablecoin exclusion filter). -/
def Pair.RemovePairsByFilter (pairs : List CurrencyPair) (filter : String) : List CurrencyPair :=
  pairs.filter (fun p => !(Pair.ContainsCurrency p filter))

/-- Modelled from the spec: the static fiat/crypto symbol-equivalence
mapping of spec sections 2 and 4.1 (e.g. BTC <-> XBT, USD <-> USDT; the
helper doc comment in the source gives BTCUSD -> BTC USDT -> XBT USDT ->
XBT USD). Lookup fails explicitly when no translation exists. -/
def GetTranslation (c : String) : Option String :=
  if c = "BTC" then some "XBT"
  else if c = "XBT" then some "BTC"
  else if c = "USD" then some "USDT"
  else if c = "USDT" then some "USD"
  else if c = "ETH" then some "XETH"
  else if c = "XETH" then some "ETH"
  else if c = "DOGE" then some "XDG"
  else if c = "XDG" then some "DOGE"
  else none

/-- The dedup-guarded append used inside GetRelatableCurrencies
(helpers.go lines 184-189): a pair is appended only when no strict-order
equal pair is already present. -/
def addPair (pairs : List CurrencyPair) (p : CurrencyPair) : List CurrencyPair :=
  if Pair.Contains pairs p true then pairs else pairs ++ [p]

/-- The buildPairs closure of GetRelatableCurrencies (helpers.go lines
191-213): optionally seed with the original pair, then add the three
translated variants whose translations exist. -/
def buildPairs (pairs : List CurrencyPair) (p : CurrencyPair) (incOrig : Bool) : List CurrencyPair :=
  let pairs := if incOrig then addPair pairs p else pairs
  let pairs :=
    match GetTranslation p.firstCurrency with
    | some first =>
      let pairs := addPair pairs (NewCurrencyPair first p.secondCurrency)
      match GetTranslation p.secondCurrency with
      | some second => addPair pairs (NewCurrencyPair first second)
      | none => pairs
    | none => pairs
  match GetTranslation p.secondCurrency with
  | some second => addPair pairs (NewCurrencyPair p.firstCurrency second)
  | none => pairs

/-- GetRelatableCurrencies (helpers.go lines 181-223): build the translated
variants of the pair and of its swap, then apply the USDT filter unless
stablecoin pairs were requested. -/
def GetRelatableCurrencies (p : CurrencyPair) (incOrig incUSDT : Bool) : List CurrencyPair :=
  let pairs := buildPairs [] p incOrig
  let pairs := buildPairs pairs p.Swap incOrig
  if !incUSDT then Pair.RemovePairsByFilter pairs "USDT" else pairs

/-- AssetType as in exchanges/assets/assets.go: a string market-segment
classifier. -/
abbrev AssetType := String

/-- Modelled from the spec: ticker price cache value (TickerCache entries,
spec section 3); only its zero value matters to the lookups verified here. -/
structure TickerPrice where
  last : ℚ := 0
  bid : ℚ := 0
  ask : ℚ := 0
  volume : ℚ := 0
deriving DecidableEq, Repr

instance : Inhabited TickerPrice := ⟨{}⟩

/-- Modelled from the spec: order-book cache value (OrderbookCache entries,
spec section 3); only its zero value matters to the lookups verified here. -/
structure OrderbookBase where
  bids : List (ℚ × ℚ) := []
  asks : List (ℚ × ℚ) := []
deriving DecidableEq, Repr

instance : Inhabited OrderbookBase := ⟨{}⟩

/-- Modelled from the spec: the per-exchange live state visible through the
capability interface of spec section 6 (GetName, IsEnabled, SupportsREST,
SupportsRESTTickerBatchUpdates, GetAssetTypes, GetEnabledPairs, FetchTicker,
FetchOrderbook). The fetch results are collaborator behaviour and are left
abstract as functions; an error is represented by the Option message. -/
structure ExchangeState where
  name : String
  enabled : Bool
  supportsREST : Bool
  supportsRESTTickerBatchUpdates : Bool
  assetTypes : List AssetType
  enabledPairs : AssetType → List CurrencyPair
  fetchTicker : CurrencyPair → AssetType → TickerPrice × Option String
  fetchOrderbook : CurrencyPair → AssetType → OrderbookBase × Option String

/-- A ticker fetch performed by the updater task: `update` is the real
network call (UpdateTicker), `fetch` the cache read (FetchTicker). -/
inductive TickerCall where
  | update : CurrencyPair → AssetType → TickerCall
  | fetch : CurrencyPair → AssetType → TickerCall
deriving DecidableEq, Repr

/-- The inner pair loop of TickerUpdaterRoutine (routines.go lines 218-224):
at index z, a batching exchange reads the cache for z > 0 and performs the
real update otherwise. -/
def tickerCalls (supportsBatching : Bool) (a : AssetType) : List CurrencyPair → Nat → List TickerCall
  | [], _ => []
  | c :: rest, z =>
    (if supportsBatching && z > 0 then TickerCall.fetch c a else TickerCall.update c a)
      :: tickerCalls supportsBatching a rest (z + 1)

/-- The per-exchange task body of TickerUpdaterRoutine (routines.go lines
188-226), as the sequence of ticker fetches it performs in one polling
iteration: a nil exchange or one without REST support performs none; any
other iterates each asset type's enabled pairs. -/
def tickerTaskCalls (e : Option ExchangeState) : List TickerCall :=
  match e with
  | none => []
  | some ex =>
    if !ex.supportsREST then []
    else (ex.assetTypes.map
      (fun a => tickerCalls ex.supportsRESTTickerBatchUpdates a (ex.enabledPairs a) 0)).flatten

/-- An order-book fetch performed by the updater task (always the real
UpdateOrderbook call, routines.go line 253). -/
inductive OrderbookCall where
  | update : CurrencyPair → AssetType → OrderbookCall
deriving DecidableEq, Repr

/-- The per-exchange task body of OrderbookUpdaterRoutine (routines.go lines
242-269), as the sequence of order-book fetches it performs in one polling
iteration. -/
def orderbookTaskCalls (e : Option ExchangeState) : List OrderbookCall :=
  match e with
  | none => []
  | some ex =>
    if !ex.supportsREST then []
    else (ex.assetTypes.map
      (fun a => (ex.enabledPairs a).map (fun c => OrderbookCall.update c a))).flatten

/-- Modelled from the spec: parsing a pair from an exchange-native string
(spec section 3); splits at the first dash or underscore delimiter, else at
the conventional three-letter boundary. -/
def NewCurrencyPairFromString (s : String) : CurrencyPair :=
  if (s.splitOn "-").length ≥ 2 then
    ⟨(s.splitOn "-").headI, ((s.splitOn "-").tailD []).headI, "-"⟩
  else if (s.splitOn "_").length ≥ 2 then
    ⟨(s.splitOn "_").headI, ((s.splitOn "_").tailD []).headI, "_"⟩
  else ⟨s.take 3, s.drop 3, ""⟩

/-- GetSpecificTicker (helpers.go lines 246-261): scan the exchange registry
for the first non-nil exchange with the requested name, fetch from it and
stop; the declared zero ticker and nil error are returned when no entry
matches. -/
def GetSpecificTicker (exchanges : List (Option ExchangeState)) (currency exchangeName : String)
    (assetType : AssetType) : TickerPrice × Option String :=
  match exchanges with
  | [] => (default, none)
  | none :: rest => GetSpecificTicker rest currency exchangeName assetType
  | some ex :: rest =>
    if ex.name == exchangeName then
      ex.fetchTicker (NewCurrencyPairFromString currency) assetType
    else GetSpecificTicker rest currency exchangeName assetType

/-- GetSpecificOrderbook (helpers.go lines 227-242): same scan-and-break
shape as GetSpecificTicker, over order books. -/
def GetSpecificOrderbook (exchanges : List (Option ExchangeState)) (currency exchangeName : String)
    (assetType : AssetType) : OrderbookBase × Option String :=
  match exchanges with
  | [] => (default, none)
  | none :: rest => GetSpecificOrderbook rest currency exchangeName assetType
  | some ex :: rest =>
    if ex.name == exchangeName then
      ex.fetchOrderbook (NewCurrencyPairFromString currency) assetType
    else GetSpecificOrderbook rest currency exchangeName assetType

/-- AccountCurrencyInfo (exchange_types.go): currency name with total value
and hold amounts; amounts over exact arithmetic. -/
structure AccountCurrencyInfo where
  currencyName : String
  totalValue : ℚ
  hold : ℚ
deriving DecidableEq, Repr

/-- Account (exchange_types.go): a singular account with its currencies. -/
structure Account where
  id : String
  currencies : List AccountCurrencyInfo
deriving DecidableEq, Repr

/-- AccountInfo (exchange_types.go): one exchange's holdings. -/
structure AccountInfo where
  exchange : String
  accounts : List Account
deriving DecidableEq, Repr

/-- The typed exchange-not-found error of the engine package. -/
inductive EngineError where
  | ErrExchangeNotFound
deriving DecidableEq, Repr

/-- GetAccountCurrencyInfoByExchangeName (helpers.go lines 291-298): first
entry whose Exchange field matches, else the typed not-found error. -/
def GetAccountCurrencyInfoByExchangeName (accounts : List AccountInfo) (exchangeName : String) :
    Except EngineError AccountInfo :=
  match accounts.find? (fun a => a.exchange == exchangeName) with
  | some a => Except.ok a
  | none => Except.error EngineError.ErrExchangeNotFound

/-- One step of GetCollatedExchangeAccountInfoByCoin (helpers.go lines
270-284): first occurrence of a currency name creates the map entry,
subsequent occurrences accumulate TotalValue and Hold. The Go map is
modelled as its lookup function. -/
def collateStep (result : String → Option AccountCurrencyInfo) (aci : AccountCurrencyInfo) :
    String → Option AccountCurrencyInfo :=
  let currencyName := aci.currencyName
  match result currencyName with
  | none => fun k =>
      if k = currencyName then
        some ⟨currencyName, aci.totalValue, aci.hold⟩
      else result k
  | some info => fun k =>
      if k = currencyName then
        some ⟨info.currencyName, info.totalValue + aci.totalValue, info.hold + aci.hold⟩
      else result k

/-- GetCollatedExchangeAccountInfoByCoin (helpers.go lines 266-288): the
triple nested loop over exchanges, accounts and currencies, building the
per-currency sums. -/
def GetCollatedExchangeAccountInfoByCoin (exchAccounts : List AccountInfo) :
    String → Option AccountCurrencyInfo :=
  exchAccounts.foldl
    (fun result accounts =>
      accounts.accounts.foldl
        (fun result account => account.currencies.foldl collateStep result)
        result)
    (fun _ => none)

/-- The flattened currency entries of an account-info list, in iteration
order; the collation visits exactly these. -/
def flattenAccountCurrencies (exchAccounts : List AccountInfo) : List AccountCurrencyInfo :=
  (exchAccounts.map (fun ai => (ai.accounts.map (fun a => a.currencies)).flatten)).flatten

/-- The per-exchange entry of the configuration registry (config.Exchanges:
Name and Enabled are the fields GetAllAvailablePairs consults). -/
structure ExchangeConfigEntry where
  name : String
  enabled : Bool
deriving DecidableEq, Repr

/-- The per-pair merge loop of GetAllAvailablePairs (helpers.go lines
34-39): append each fetched pair unless an either-order equal pair is
already present. -/
def mergePairs (pairList pairs : List CurrencyPair) : List CurrencyPair :=
  pairs.foldl
    (fun acc q => if Pair.Contains acc q false then acc else acc ++ [q])
    pairList

/-- The per-exchange body of GetAllAvailablePairs (helpers.go lines 23-40),
with the collaborator call Config.GetAvailablePairs abstracted as a fetch
function by exchange name (none is the error case): skip a disabled
exchange when requested, skip an exchange whose fetch errors, merge the
rest with either-order dedup. The loop is total - it always produces a
(possibly partial) list. -/
def availablePairsStep (getAvailablePairs : String → AssetType → Option (List CurrencyPair))
    (enabledExchangesOnly : Bool) (assetType : AssetType)
    (pairList : List CurrencyPair) (ex : ExchangeConfigEntry) : List CurrencyPair :=
  if enabledExchangesOnly && !ex.enabled then pairList
  else
    match getAvailablePairs ex.name assetType with
    | none => pairList
    | some pairs => mergePairs pairList pairs

/-- GetAllAvailablePairs (helpers.go lines 21-42) as the fold of the
per-exchange step over the configuration registry, starting empty. -/
def GetAllAvailablePairs (exchanges : List ExchangeConfigEntry)
    (getAvailablePairs : String → AssetType → Option (List CurrencyPair))
    (enabledExchangesOnly : Bool) (assetType : AssetType) : List CurrencyPair :=
  exchanges.foldl (availablePairsStep getAvailablePairs enabledExchangesOnly assetType) []

/-- Modelled from the spec: one entry of the persisted portfolio ledger
(spec section 6, portfolio ledger collaborator): exchange name as address,
coin type, balance and the entry description. -/
structure Address where
  address : String
  coinType : String
  balance : ℚ
  description : String
deriving DecidableEq, Repr

/-- The portfolio ledger is its address list. -/
abbrev Portfolio := List Address

/-- The description tag of exchange-held ledger entries
(portfolio.PortfolioAddressExchange). -/
def PortfolioAddressExchange : String := "Exchange"

/-- Modelled from the spec: AddressExists of the portfolio ledger
collaborator - whether any entry matches the exchange name and coin. -/
def ExchangeAddressExists (port : Portfolio) (exchangeName coinType : String) : Bool :=
  port.any (fun a => a.address == exchangeName && a.coinType == coinType)

/-- Modelled from the spec: RemoveExchangeAddress of the portfolio ledger
collaborator - the entry for the exchange name and coin is removed. -/
def RemoveExchangeAddress (port : Portfolio) (exchangeName coinType : String) : Portfolio :=
  port.filter (fun a => !(a.address == exchangeName && a.coinType == coinType))

/-- Modelled from the spec: GetAddressBalance of the portfolio ledger
collaborator - the stored balance of the entry matching address, coin and
description, when present. -/
def GetAddressBalance (port : Portfolio) (address coinType description : String) : Option ℚ :=
  (port.find? (fun a =>
    a.address == address && a.coinType == coinType && a.description == description)).map
    (fun a => a.balance)

/-- Modelled from the spec: UpdateExchangeAddressBalance of the portfolio
ledger collaborator - the matching entry's balance is set to the new
value. -/
def UpdateExchangeAddressBalance (port : Portfolio) (exchangeName coinType : String) (balance : ℚ) :
    Portfolio :=
  port.map (fun a =>
    if a.address == exchangeName && a.coinType == coinType then
      ⟨a.address, a.coinType, balance, a.description⟩
    else a)

/-- One step of the per-exchange summation loop of SeedExchangeAccountInfo
(helpers.go lines 334-356): accumulate into an existing same-name entry,
else append a fresh entry. -/
def seedCollateStep (currencies : List AccountCurrencyInfo) (info : AccountCurrencyInfo) :
    List AccountCurrencyInfo :=
  let updated := currencies.map (fun c =>
    if info.currencyName == c.currencyName then
      ⟨c.currencyName, c.totalValue + info.totalValue, c.hold + info.hold⟩
    else c)
  if currencies.any (fun c => info.currencyName == c.currencyName) then updated
  else updated ++ [⟨info.currencyName, info.totalValue, info.hold⟩]

/-- The whole summation loop of SeedExchangeAccountInfo over one exchange's
accounts (helpers.go lines 333-356). -/
def seedCollate (accounts : List Account) : List AccountCurrencyInfo :=
  accounts.foldl (fun currencies account => account.currencies.foldl seedCollateStep currencies) []

/-- The ledger reconciliation step of SeedExchangeAccountInfo for one summed
currency (helpers.go lines 358-408): add a new entry on a previously-absent
positive balance, remove the entry on a non-positive balance, update the
entry when the stored balance differs. -/
def seedProcessCurrency (exchangeName : String) (port : Portfolio) (total : AccountCurrencyInfo) :
    Portfolio :=
  let currencyName := total.currencyName
  let t := total.totalValue
  if !(ExchangeAddressExists port exchangeName currencyName) then
    if t ≤ 0 then port
    else port ++ [⟨exchangeName, currencyName, t, PortfolioAddressExchange⟩]
  else
    if t ≤ 0 then RemoveExchangeAddress port exchangeName currencyName
    else
      match GetAddressBalance port exchangeName currencyName PortfolioAddressExchange with
      | none => port
      | some balance =>
        if balance ≠ t then UpdateExchangeAddressBalance port exchangeName currencyName t
        else port

/-- The body of the outer loop of SeedExchangeAccountInfo for one element of
the input data (helpers.go lines 330-409): sum that exchange's currencies
and reconcile each summed total against the ledger in order. -/
def seedProcessExchange (port : Portfolio) (exchangeData : AccountInfo) : Portfolio :=
  (seedCollate exchangeData.accounts).foldl
    (seedProcessCurrency exchangeData.exchange) port

/-- SeedExchangeAccountInfo (helpers.go lines 323-410) as a function of the
ledger: an empty input returns immediately; otherwise each input element's
currencies are summed and reconciled against the ledger in order. -/
def SeedExchangeAccountInfo (data : List AccountInfo) (port : Portfolio) : Portfolio :=
  if data.length = 0 then port
  else data.foldl seedProcessExchange port

/-- The summed TotalValue an input data list carries for one exchange and
currency: the sum over every data element for that exchange of its entries
for that currency (the quantity the reconciliation claim speaks about). -/
def summedTotalValue (data : List AccountInfo) (E C : String) : ℚ :=
  (((flattenAccountCurrencies (data.filter (fun d => d.exchange == E))).filter
    (fun x => x.currencyName == C)).map (fun x => x.totalValue)).sum

/-- A concrete pair used by concrete instances below. -/
def btcusd : CurrencyPair := ⟨"BTC", "USD", "-"⟩

/-- A second concrete pair used by concrete instances below. -/
def ethbtc : CurrencyPair := ⟨"ETH", "BTC", "-"⟩

/-- A disabled exchange that is non-nil and supports REST, with one enabled
spot pair: the updater tasks do fetch from it. -/
def disabledRestExchange : ExchangeState where
  name := "Bitstamp"
  enabled := false
  supportsREST := true
  supportsRESTTickerBatchUpdates := false
  assetTypes := ["Spot"]
  enabledPairs := fun _ => [btcusd]
  fetchTicker := fun _ _ => (default, none)
  fetchOrderbook := fun _ _ => (default, none)

/-- A batching exchange with two asset types, two enabled pairs each, used
for the ticker-batching claims. -/
def batchingExchange : ExchangeState where
  name := "Gemini"
  enabled := true
  supportsREST := true
  supportsRESTTickerBatchUpdates := true
  assetTypes := ["Spot", "Futures"]
  enabledPairs := fun _ => [btcusd, ethbtc]
  fetchTicker := fun _ _ => (default, none)
  fetchOrderbook := fun _ _ => (default, none)

/-- C1 (amended): the per-exchange task of the ticker and order-book
updater routines performs no fetch whenever the exchange is nil or does not
support REST; the enabled flag is not consulted by either guard. -/
theorem updaterTasksSkipNilOrNoRest (e : Option ExchangeState)
    (h : e = none ∨ ∃ ex, e = some ex ∧ ex.supportsREST = false) :
    tickerTaskCalls e = [] ∧ orderbookTaskCalls e = [] := by
  rcases h with h | ⟨ex, rfl, hex⟩
  · subst h; exact ⟨rfl, rfl⟩
  · constructor <;> simp [tickerTaskCalls, orderbookTaskCalls, hex]

/-- C1 witness: the amended skip property at the nil exchange. -/
theorem updaterTasksSkipNilOrNoRest_witness :
    tickerTaskCalls none = [] ∧ orderbookTaskCalls none = [] :=
  updaterTasksSkipNilOrNoRest none (Or.inl rfl)

/-- C1 counterexample: a disabled exchange that is non-nil and supports REST
is still fetched from by both updater tasks within an iteration, refuting
the claim that a disabled exchange is never fetched from. -/
theorem updaterTasksFetchDisabledExchange :
    disabledRestExchange.enabled = false ∧
    tickerTaskCalls (some disabledRestExchange) = [TickerCall.update btcusd "Spot"] ∧
    orderbookTaskCalls (some disabledRestExchange) = [OrderbookCall.update btcusd "Spot"] :=
  ⟨rfl, rfl, rfl⟩

/-- On a batching exchange, every pair visited at a positive loop index is
read from the cache. -/
theorem tickerCalls_batching_pos (a : AssetType) :
    ∀ (l : List CurrencyPair) (z : Nat),
      tickerCalls true a l (z + 1) = l.map (fun q => TickerCall.fetch q a) := by
  intro l
  induction l with
  | nil => intro z; rfl
  | cons c rest ih =>
    intro z
    simp [tickerCalls, ih]

/-- C4 (amended): on an exchange advertising REST ticker batch updates, the
real network update is performed for the first enabled pair of each asset
type, and the cache-reading fetch for every later pair of that same asset
type; with several asset types the network update therefore recurs once per
asset type within one iteration, not once per iteration. -/
theorem batchingUpdatesFirstPairPerAssetType (ex : ExchangeState)
    (hrest : ex.supportsREST = true) (hbatch : ex.supportsRESTTickerBatchUpdates = true) :
    tickerTaskCalls (some ex) =
      (ex.assetTypes.map (fun a =>
        match ex.enabledPairs a with
        | [] => []
        | c :: rest => TickerCall.update c a :: rest.map (fun q => TickerCall.fetch q a))).flatten := by
  simp only [tickerTaskCalls, hrest, hbatch, Bool.not_true, Bool.false_eq_true, if_false]
  refine congrArg List.flatten (List.map_congr_left ?_)
  intro a _
  cases h : ex.enabledPairs a with
  | nil => simp [tickerCalls]
  | cons c rest =>
    simp [tickerCalls, tickerCalls_batching_pos]

/-- C4 witness: the amended per-asset-type batching behaviour evaluated on
the concrete batching exchange. -/
theorem batchingUpdatesFirstPairPerAssetType_witness :
    tickerTaskCalls (some batchingExchange) =
      (batchingExchange.assetTypes.map (fun a =>
        match batchingExchange.enabledPairs a with
        | [] => []
        | c :: rest => TickerCall.update c a :: rest.map (fun q => TickerCall.fetch q a))).flatten :=
  batchingUpdatesFirstPairPerAssetType batchingExchange rfl rfl

/-- C4 counterexample: on the batching exchange with two asset types, the
third fetch of the iteration (a subsequent pair, index 2 of the call list)
is a real network update rather than a cache read, refuting the claim that
only the first enabled pair of the whole iteration triggers UpdateTicker. -/
theorem batchingUpdatesNotOncePerIteration :
    batchingExchange.supportsRESTTickerBatchUpdates = true ∧
    tickerTaskCalls (some batchingExchange) =
      [TickerCall.update btcusd "Spot", TickerCall.fetch ethbtc "Spot",
       TickerCall.update btcusd "Futures", TickerCall.fetch ethbtc "Futures"] ∧
    (tickerTaskCalls (some batchingExchange))[2]? = some (TickerCall.update btcusd "Futures") :=
  ⟨rfl, rfl, rfl⟩

/-- C3 (amended): when no configured exchange carries the requested name,
GetAccountCurrencyInfoByExchangeName fails fast with the typed
ErrExchangeNotFound, while GetSpecificTicker and GetSpecificOrderbook
instead return the zero value together with a nil error. -/
theorem lookupByMissingName (exchanges : List (Option ExchangeState))
    (accounts : List AccountInfo) (currency exchangeName : String) (assetType : AssetType)
    (hexch : ∀ e ∈ exchanges, Option.map ExchangeState.name e ≠ some exchangeName)
    (hacc : ∀ a ∈ accounts, a.exchange ≠ exchangeName) :
    GetAccountCurrencyInfoByExchangeName accounts exchangeName =
      Except.error EngineError.ErrExchangeNotFound ∧
    GetSpecificTicker exchanges currency exchangeName assetType = (default, none) ∧
    GetSpecificOrderbook exchanges currency exchangeName assetType = (default, none) := by
  refine ⟨?_, ?_, ?_⟩
  · have hfind : accounts.find? (fun a => a.exchange == exchangeName) = none := by
      rw [List.find?_eq_none]
      intro a ha
      simpa using hacc a ha
    simp [GetAccountCurrencyInfoByExchangeName, hfind]
  · induction exchanges with
    | nil => rfl
    | cons e rest ih =>
      have hrest : ∀ x ∈ rest, Option.map ExchangeState.name x ≠ some exchangeName :=
        fun x hx => hexch x (List.mem_cons_of_mem e hx)
      cases e with
      | none => exact ih hrest
      | some ex =>
        have hne : ex.name ≠ exchangeName := by
          have := hexch (some ex) (List.mem_cons_self _ _)
          simpa using this
        simpa [GetSpecificTicker, hne] using ih hrest
  · induction exchanges with
    | nil => rfl
    | cons e rest ih =>
      have hrest : ∀ x ∈ rest, Option.map ExchangeState.name x ≠ some exchangeName :=
        fun x hx => hexch x (List.mem_cons_of_mem e hx)
      cases e with
      | none => exact ih hrest
      | some ex =>
        have hne : ex.name ≠ exchangeName := by
          have := hexch (some ex) (List.mem_cons_self _ _)
          simpa using this
        simpa [GetSpecificOrderbook, hne] using ih hrest

/-- C3 witness: the amended lookup behaviour at a concrete registry holding
one nil slot and one exchange, with a name nobody carries. -/
theorem lookupByMissingName_witness :
    GetAccountCurrencyInfoByExchangeName [⟨"Kraken", []⟩] "Missing" =
      Except.error EngineError.ErrExchangeNotFound ∧
    GetSpecificTicker [none, some batchingExchange] "BTC-USD" "Missing" "Spot" =
      (default, none) ∧
    GetSpecificOrderbook [none, some batchingExchange] "BTC-USD" "Missing" "Spot" =
      (default, none) :=
  lookupByMissingName [none, some batchingExchange] [⟨"Kraken", []⟩] "BTC-USD" "Missing" "Spot"
    (by intro e he
        simp only [List.mem_cons, List.mem_singleton, List.not_mem_nil, or_false] at he
        rcases he with rfl | rfl
        · simp
        · simp [batchingExchange])
    (by intro a ha
        simp only [List.mem_singleton] at ha
        subst ha
        simp)

/-- C3 counterexample: GetSpecificTicker and GetSpecificOrderbook, asked for
an exchange name absent from the registry, return the zero value with a nil
error instead of the claimed non-nil exchange-not-found error. -/
theorem lookupByMissingNameNilError :
    (GetSpecificTicker [some batchingExchange] "BTC-USD" "Missing" "Spot").2 = none ∧
    (GetSpecificOrderbook [some batchingExchange] "BTC-USD" "Missing" "Spot").2 = none :=
  ⟨rfl, rfl⟩

/-- The guarded append of the pair-merge loop keeps the accumulated list
free of either-order duplicates. -/
theorem pairwise_mergeInsert (acc : List CurrencyPair) (q : CurrencyPair)
    (h : List.Pairwise (fun a b => a.Equal b false = false) acc) :
    List.Pairwise (fun a b => a.Equal b false = false)
      (if Pair.Contains acc q false then acc else acc ++ [q]) := by
  split
  · exact h
  · next hc =>
    rw [List.pairwise_append]
    refine ⟨h, List.pairwise_singleton _ _, ?_⟩
    intro a ha b hb
    rw [List.mem_singleton] at hb
    subst hb
    have := (List.any_eq_false).mp (Bool.not_eq_true _ ▸ hc) a ha
    · simpa using this

/-- mergePairs keeps the accumulated list free of either-order duplicates. -/
theorem pairwise_mergePairs (qs : List CurrencyPair) :
    ∀ (acc : List CurrencyPair),
      List.Pairwise (fun a b => a.Equal b false = false) acc →
      List.Pairwise (fun a b => a.Equal b false = false) (mergePairs acc qs) := by
  induction qs with
  | nil => intro acc h; exact h
  | cons q rest ih =>
    intro acc h
    rw [mergePairs, List.foldl_cons]
    exact ih _ (pairwise_mergeInsert acc q h)

/-- The per-exchange step of GetAllAvailablePairs keeps the list free of
either-order duplicates. -/
theorem pairwise_availablePairsStep (fetch : String → AssetType → Option (List CurrencyPair))
    (eo : Bool) (assetType : AssetType) (acc : List CurrencyPair) (ex : ExchangeConfigEntry)
    (h : List.Pairwise (fun a b => a.Equal b false = false) acc) :
    List.Pairwise (fun a b => a.Equal b false = false)
      (availablePairsStep fetch eo assetType acc ex) := by
  rw [availablePairsStep]
  split
  · exact h
  · cases fetch ex.name assetType with
    | none => exact h
    | some pairs => exact pairwise_mergePairs pairs acc h

/-- An exchange whose fetch errors leaves the accumulated list unchanged. -/
theorem availablePairsStep_error (fetch : String → AssetType → Option (List CurrencyPair))
    (eo : Bool) (assetType : AssetType) (acc : List CurrencyPair) (ex : ExchangeConfigEntry)
    (hbad : fetch ex.name assetType = none) :
    availablePairsStep fetch eo assetType acc ex = acc := by
  rw [availablePairsStep, hbad]
  split <;> rfl

/-- C5: for every configuration registry, fetch behaviour and asset type,
GetAllAvailablePairs returns a list with no two pairs equal under
either-order equality, and exchanges whose fetch errors contribute nothing:
dropping them from the registry leaves the (always returned, possibly
partial) result unchanged. -/
theorem allAvailablePairsDedupAndPartial (cfg : List ExchangeConfigEntry)
    (fetch : String → AssetType → Option (List CurrencyPair))
    (enabledExchangesOnly : Bool) (assetType : AssetType) :
    List.Pairwise (fun a b => a.Equal b false = false)
      (GetAllAvailablePairs cfg fetch enabledExchangesOnly assetType) ∧
    GetAllAvailablePairs cfg fetch enabledExchangesOnly assetType =
      GetAllAvailablePairs (cfg.filter (fun ex => (fetch ex.name assetType).isSome))
        fetch enabledExchangesOnly assetType := by
  constructor
  · rw [GetAllAvailablePairs]
    have main : ∀ (l : List ExchangeConfigEntry) (acc : List CurrencyPair),
        List.Pairwise (fun a b => a.Equal b false = false) acc →
        List.Pairwise (fun a b => a.Equal b false = false)
          (l.foldl (availablePairsStep fetch enabledExchangesOnly assetType) acc) := by
      intro l
      induction l with
      | nil => intro acc h; exact h
      | cons ex rest ih =>
        intro acc h
        rw [List.foldl_cons]
        exact ih _ (pairwise_availablePairsStep fetch enabledExchangesOnly assetType acc ex h)
    exact main cfg [] (List.Pairwise.nil)
  · rw [GetAllAvailablePairs, GetAllAvailablePairs]
    have main : ∀ (l : List ExchangeConfigEntry) (acc : List CurrencyPair),
        l.foldl (availablePairsStep fetch enabledExchangesOnly assetType) acc =
          (l.filter (fun ex => (fetch ex.name assetType).isSome)).foldl
            (availablePairsStep fetch enabledExchangesOnly assetType) acc := by
      intro l
      induction l with
      | nil => intro acc; rfl
      | cons ex rest ih =>
        intro acc
        rw [List.foldl_cons]
        cases hfetch : fetch ex.name assetType with
        | none =>
          rw [availablePairsStep_error fetch enabledExchangesOnly assetType acc ex hfetch]
          have : (List.filter (fun ex => (fetch ex.name assetType).isSome) (ex :: rest)) =
              List.filter (fun ex => (fetch ex.name assetType).isSome) rest := by
            rw [List.filter_cons]
            simp [hfetch]
          rw [this]
          exact ih acc
        | some ps =>
          have : (List.filter (fun ex => (fetch ex.name assetType).isSome) (ex :: rest)) =
              ex :: List.filter (fun ex => (fetch ex.name assetType).isSome) rest := by
            rw [List.filter_cons]
            simp [hfetch]
          rw [this, List.foldl_cons]
          exact ih _
    exact main cfg []

/-- Ledger existence phrased as an existential over entries. -/
theorem exchangeAddressExists_iff (port : Portfolio) (e c : String) :
    ExchangeAddressExists port e c = true ↔
      ∃ a ∈ port, a.address = e ∧ a.coinType = c := by
  simp [ExchangeAddressExists, List.any_eq_true]

/-- Appending an entry that is not an (E, C) entry does not affect (E, C)
existence. -/
theorem exchangeAddressExists_append_other (port : Portfolio) (E C : String) (a : Address)
    (hc : ¬(a.address = E ∧ a.coinType = C)) :
    ExchangeAddressExists (port ++ [a]) E C = ExchangeAddressExists port E C := by
  rw [Bool.eq_iff_iff, exchangeAddressExists_iff, exchangeAddressExists_iff]
  constructor
  · rintro ⟨b, hb, hbe, hbc⟩
    rcases List.mem_append.mp hb with hb | hb
    · exact ⟨b, hb, hbe, hbc⟩
    · rw [List.mem_singleton] at hb
      subst hb
      exact absurd ⟨hbe, hbc⟩ hc
  · rintro ⟨b, hb, hbe, hbc⟩
    exact ⟨b, List.mem_append_left _ hb, hbe, hbc⟩

/-- Removing the entries of a different (exchange, coin) key does not
affect (E, C) existence. -/
theorem exchangeAddressExists_remove_other (port : Portfolio) (E C E2 cn : String)
    (hc : ¬(E2 = E ∧ cn = C)) :
    ExchangeAddressExists (RemoveExchangeAddress port E2 cn) E C =
      ExchangeAddressExists port E C := by
  rw [Bool.eq_iff_iff, exchangeAddressExists_iff, exchangeAddressExists_iff]
  constructor
  · rintro ⟨a, ha, hae, hac⟩
    exact ⟨a, (List.mem_filter.mp ha).1, hae, hac⟩
  · rintro ⟨a, ha, hae, hac⟩
    refine ⟨a, List.mem_filter.mpr ⟨ha, ?_⟩, hae, hac⟩
    subst hae hac
    rw [Bool.not_eq_true', Bool.and_eq_false_iff]
    by_cases he : E2 = a.address
    · have hcn : cn ≠ a.coinType := fun hcc => hc ⟨he, hcc⟩
      exact Or.inr (beq_eq_false_iff_ne.mpr (fun h => hcn h.symm))
    · exact Or.inl (beq_eq_false_iff_ne.mpr (fun h => he h.symm))

/-- A balance update never changes which ledger entries exist. -/
theorem exchangeAddressExists_update (port : Portfolio) (E C E2 cn : String) (v : ℚ) :
    ExchangeAddressExists (UpdateExchangeAddressBalance port E2 cn v) E C =
      ExchangeAddressExists port E C := by
  rw [Bool.eq_iff_iff, exchangeAddressExists_iff, exchangeAddressExists_iff]
  constructor
  · rintro ⟨a, ha, hae, hac⟩
    simp only [UpdateExchangeAddressBalance, List.mem_map] at ha
    obtain ⟨b, hb, rfl⟩ := ha
    by_cases hmatch : (b.address == E2 && b.coinType == cn) = true
    · rw [if_pos hmatch] at hae hac
      exact ⟨b, hb, hae, hac⟩
    · rw [if_neg hmatch] at hae hac
      exact ⟨b, hb, hae, hac⟩
  · rintro ⟨a, ha, hae, hac⟩
    by_cases hmatch : (a.address == E2 && a.coinType == cn) = true
    · refine ⟨⟨a.address, a.coinType, v, a.description⟩, ?_, hae, hac⟩
      simp only [UpdateExchangeAddressBalance, List.mem_map]
      exact ⟨a, ha, by rw [if_pos hmatch]⟩
    · refine ⟨a, ?_, hae, hac⟩
      simp only [UpdateExchangeAddressBalance, List.mem_map]
      exact ⟨a, ha, by rw [if_neg hmatch]⟩

/-- The reconciliation step produces one of exactly four ledgers: untouched,
appended with the new entry, pruned of the entry, or balance-updated. -/
theorem seedProcessCurrency_cases (E : String) (port : Portfolio) (y : AccountCurrencyInfo) :
    seedProcessCurrency E port y = port ∨
    seedProcessCurrency E port y =
      port ++ [⟨E, y.currencyName, y.totalValue, PortfolioAddressExchange⟩] ∨
    seedProcessCurrency E port y = RemoveExchangeAddress port E y.currencyName ∨
    seedProcessCurrency E port y =
      UpdateExchangeAddressBalance port E y.currencyName y.totalValue := by
  rw [seedProcessCurrency]
  repeat' split
  all_goals first
    | exact Or.inl rfl
    | exact Or.inr (Or.inl rfl)
    | exact Or.inr (Or.inr (Or.inl rfl))
    | exact Or.inr (Or.inr (Or.inr rfl))

/-- A reconciliation step performed under an exchange name E2 for a summed
currency y neither creates nor destroys the (E, C) ledger entry as long as
(E2, y's name) is not the key (E, C) itself. -/
theorem seedProcessCurrency_preserves (E2 E C : String) (port : Portfolio)
    (y : AccountCurrencyInfo) (hy : ¬(E2 = E ∧ y.currencyName = C)) :
    ExchangeAddressExists (seedProcessCurrency E2 port y) E C =
      ExchangeAddressExists port E C := by
  rcases seedProcessCurrency_cases E2 port y with h | h | h | h <;> rw [h]
  · exact exchangeAddressExists_append_other port E C _ (fun hh => hy ⟨hh.1, hh.2⟩)
  · exact exchangeAddressExists_remove_other port E C _ _ hy
  · exact exchangeAddressExists_update port E C _ _ _

/-- The reconciliation step for a non-positive summed total leaves no
matching ledger entry behind, whether one existed before or not. -/
theorem seedProcessCurrency_removes (E : String) (port : Portfolio)
    (y : AccountCurrencyInfo) (ht : y.totalValue ≤ 0) :
    ExchangeAddressExists (seedProcessCurrency E port y) E y.currencyName = false := by
  by_cases hex : ExchangeAddressExists port E y.currencyName = true
  · have hstep : seedProcessCurrency E port y =
        RemoveExchangeAddress port E y.currencyName := by
      simp [seedProcessCurrency, hex, ht]
    rw [hstep]
    simp only [ExchangeAddressExists, RemoveExchangeAddress]
    rw [List.any_eq_false]
    intro a ha
    rw [List.mem_filter] at ha
    have h2 := ha.2
    rw [Bool.not_eq_true'] at h2
    simp [h2]
  · have hb : ExchangeAddressExists port E y.currencyName = false := by
      simpa using hex
    have hstep : seedProcessCurrency E port y = port := by
      simp [seedProcessCurrency, hb, ht]
    rw [hstep]
    exact hb

/-- The summation step keeps existing currency names and appends the new
name only when absent. -/
theorem seedCollateStep_names (currencies : List AccountCurrencyInfo)
    (info : AccountCurrencyInfo) :
    (seedCollateStep currencies info).map (fun c => c.currencyName) =
      if currencies.any (fun c => info.currencyName == c.currencyName) then
        currencies.map (fun c => c.currencyName)
      else currencies.map (fun c => c.currencyName) ++ [info.currencyName] := by
  rw [seedCollateStep]
  have hmap : (currencies.map (fun c =>
      if info.currencyName == c.currencyName then
        (⟨c.currencyName, c.totalValue + info.totalValue, c.hold + info.hold⟩ :
          AccountCurrencyInfo)
      else c)).map (fun c => c.currencyName) = currencies.map (fun c => c.currencyName) := by
    rw [List.map_map]
    refine List.map_congr_left ?_
    intro c _
    by_cases h : info.currencyName = c.currencyName
    · simp [h]
    · simp [h]
  split
  · exact hmap
  · rw [List.map_append, hmap]
    rfl

/-- The summation step preserves distinctness of the currency names. -/
theorem seedCollateStep_nodup (currencies : List AccountCurrencyInfo)
    (info : AccountCurrencyInfo)
    (h : (currencies.map (fun c => c.currencyName)).Nodup) :
    ((seedCollateStep currencies info).map (fun c => c.currencyName)).Nodup := by
  rw [seedCollateStep_names]
  split
  · exact h
  · next hany =>
    have hnotmem : info.currencyName ∉ currencies.map (fun c => c.currencyName) := by
      intro hmem
      obtain ⟨c, hc, hcn⟩ := List.mem_map.mp hmem
      have := List.any_eq_false.mp (Bool.not_eq_true _ ▸ hany) c hc
      simp [hcn] at this
    rw [List.nodup_append]
    exact ⟨h, List.nodup_singleton _, by
      intro a ha hb
      rw [List.mem_singleton] at hb
      subst hb
      exact hnotmem ha⟩

/-- Every list produced by the summation loop of SeedExchangeAccountInfo
carries pairwise distinct currency names. -/
theorem seedCollate_nodup (accounts : List Account) :
    ((seedCollate accounts).map (fun c => c.currencyName)).Nodup := by
  have inner : ∀ (infos : List AccountCurrencyInfo) (cur : List AccountCurrencyInfo),
      (cur.map (fun c => c.currencyName)).Nodup →
      ((infos.foldl seedCollateStep cur).map (fun c => c.currencyName)).Nodup := by
    intro infos
    induction infos with
    | nil => intro cur h; exact h
    | cons i rest ih =>
      intro cur h
      rw [List.foldl_cons]
      exact ih _ (seedCollateStep_nodup cur i h)
  have outer : ∀ (accs : List Account) (cur : List AccountCurrencyInfo),
      (cur.map (fun c => c.currencyName)).Nodup →
      ((accs.foldl (fun currencies account =>
        account.currencies.foldl seedCollateStep currencies) cur).map
          (fun c => c.currencyName)).Nodup := by
    intro accs
    induction accs with
    | nil => intro cur h; exact h
    | cons a rest ih =>
      intro cur h
      rw [List.foldl_cons]
      exact ih _ (inner a.currencies cur h)
  exact outer accounts [] List.Pairwise.nil

/-- Reconciling a run of summed currencies under exchange name E2, none of
which carries the key (E, C), does not affect (E, C) existence. -/
theorem seedFold_preserves (E2 E C : String) :
    ∀ (l : List AccountCurrencyInfo) (port : Portfolio),
      (∀ y ∈ l, ¬(E2 = E ∧ y.currencyName = C)) →
      ExchangeAddressExists (l.foldl (seedProcessCurrency E2) port) E C =
        ExchangeAddressExists port E C := by
  intro l
  induction l with
  | nil => intro port _; rfl
  | cons y rest ih =>
    intro port h
    rw [List.foldl_cons, ih _ (fun z hz => h z (List.mem_cons_of_mem y hz)),
      seedProcessCurrency_preserves E2 E C port y (h y (List.mem_cons_self y rest))]

/-- Processing a data element of a different exchange name never touches
(E, C) existence in the ledger. -/
theorem seedProcessExchange_preserves_other (d : AccountInfo) (port : Portfolio)
    (E C : String) (hd : d.exchange ≠ E) :
    ExchangeAddressExists (seedProcessExchange port d) E C =
      ExchangeAddressExists port E C := by
  rw [seedProcessExchange]
  exact seedFold_preserves d.exchange E C _ port (fun y _ hh => hd hh.1)

/-- Processing a data element whose summed total for currency C is
non-positive leaves no (exchange, C) entry behind, whatever the incoming
ledger was. -/
theorem seedProcessExchange_removes (d : AccountInfo) (C : String) (t hq : ℚ)
    (hmem : (⟨C, t, hq⟩ : AccountCurrencyInfo) ∈ seedCollate d.accounts)
    (ht : t ≤ 0) (port : Portfolio) :
    ExchangeAddressExists (seedProcessExchange port d) d.exchange C = false := by
  rw [seedProcessExchange]
  obtain ⟨l₁, l₂, hsplit⟩ := List.append_of_mem hmem
  have hnodup := seedCollate_nodup d.accounts
  rw [hsplit] at hnodup ⊢
  rw [List.map_append, List.map_cons] at hnodup
  have htail := hnodup.of_append_right
  rw [List.nodup_cons] at htail
  have hl₂ : ∀ y ∈ l₂, ¬(d.exchange = d.exchange ∧ y.currencyName = C) := by
    intro y hy hh
    exact htail.1 (List.mem_map.mpr ⟨y, hy, hh.2⟩)
  rw [List.foldl_append, List.foldl_cons]
  rw [seedFold_preserves d.exchange d.exchange C l₂ _ hl₂]
  exact seedProcessCurrency_removes d.exchange _ ⟨C, t, hq⟩ ht

/-- Once the (d.exchange, C) entry is absent, processing further data
elements that are either d itself (whose C total is non-positive) or carry
a different exchange name cannot resurrect it. -/
theorem seedFoldBlocks_preserves_false (d : AccountInfo) (C : String) (t hq : ℚ)
    (hmem : (⟨C, t, hq⟩ : AccountCurrencyInfo) ∈ seedCollate d.accounts)
    (ht : t ≤ 0) :
    ∀ (l : List AccountInfo) (port : Portfolio),
      (∀ d2 ∈ l, d2.exchange = d.exchange → d2 = d) →
      ExchangeAddressExists port d.exchange C = false →
      ExchangeAddressExists (l.foldl seedProcessExchange port) d.exchange C = false := by
  intro l
  induction l with
  | nil => intro port _ hfalse; exact hfalse
  | cons d2 rest ih =>
    intro port huniq hfalse
    rw [List.foldl_cons]
    refine ih _ (fun z hz hze => huniq z (List.mem_cons_of_mem d2 hz) hze) ?_
    by_cases he : d2.exchange = d.exchange
    · have hd2 : d2 = d := huniq d2 (List.mem_cons_self _ _) he
      subst hd2
      exact seedProcessExchange_removes d2 C t hq hmem ht port
    · rw [seedProcessExchange_preserves_other d2 port _ _ he]
      exact hfalse

/-- C6 (amended): when the ledger holds an entry for an exchange and
currency, the account data contains an element for that exchange whose
summed TotalValue for the currency is zero or below, and no other data
element carries that exchange name, the entry is gone after
SeedExchangeAccountInfo - the other elements, being for other exchanges,
cannot resurrect it. -/
theorem seedRemovesNonPositiveBalanceEntry (data : List AccountInfo) (d : AccountInfo)
    (port : Portfolio) (C : String) (t hq : ℚ)
    (hd : d ∈ data)
    (huniq : ∀ d2 ∈ data, d2.exchange = d.exchange → d2 = d)
    (hmem : (⟨C, t, hq⟩ : AccountCurrencyInfo) ∈ seedCollate d.accounts)
    (ht : t ≤ 0)
    (_hex : ExchangeAddressExists port d.exchange C = true) :
    ExchangeAddressExists (SeedExchangeAccountInfo data port) d.exchange C = false := by
  obtain ⟨l₁, l₂, hsplit⟩ := List.append_of_mem hd
  have hne : data.length ≠ 0 := by
    rw [hsplit]
    simp
  rw [SeedExchangeAccountInfo, if_neg hne, hsplit, List.foldl_append, List.foldl_cons]
  refine seedFoldBlocks_preserves_false d C t hq hmem ht l₂ _ ?_ ?_
  · intro d2 hd2 hde
    refine huniq d2 ?_ hde
    rw [hsplit]
    exact List.mem_append_right _ (List.mem_cons_of_mem d hd2)
  · exact seedProcessExchange_removes d C t hq hmem ht _

/-- C6 witness: a two-exchange data list whose Kraken element sums BTC to
zero removes the (Kraken, BTC) ledger entry; the Gemini element cannot
resurrect it. -/
theorem seedRemovesNonPositiveBalanceEntry_witness :
    ExchangeAddressExists
      (SeedExchangeAccountInfo
        [⟨"Kraken", [⟨"main", [⟨"BTC", 0, 0⟩]⟩]⟩, ⟨"Gemini", [⟨"g", [⟨"ETH", 3, 0⟩]⟩]⟩]
        [⟨"Kraken", "BTC", 1, "Exchange"⟩]) "Kraken" "BTC" = false :=
  seedRemovesNonPositiveBalanceEntry
    [⟨"Kraken", [⟨"main", [⟨"BTC", 0, 0⟩]⟩]⟩, ⟨"Gemini", [⟨"g", [⟨"ETH", 3, 0⟩]⟩]⟩]
    ⟨"Kraken", [⟨"main", [⟨"BTC", 0, 0⟩]⟩]⟩
    [⟨"Kraken", "BTC", 1, "Exchange"⟩] "BTC" 0 0
    (by decide) (by decide) (by decide) (by decide) (by decide)

/-- Account data in which the same exchange name occurs twice: the first
element sums BTC to -10, the second to 1, for an overall summed TotalValue
of -9. -/
def duplicateKrakenData : List AccountInfo :=
  [⟨"Kraken", [⟨"a", [⟨"BTC", -10, 0⟩]⟩]⟩, ⟨"Kraken", [⟨"b", [⟨"BTC", 1, 0⟩]⟩]⟩]

/-- C6 counterexample: with a duplicated exchange name the summed
TotalValue for (Kraken, BTC) is -9 ≤ 0 and the ledger entry exists, yet
after SeedExchangeAccountInfo the entry is still present - the first
element removes it and the second, positive one re-adds it. -/
theorem seedDuplicateExchangeKeepsEntry :
    summedTotalValue duplicateKrakenData "Kraken" "BTC" = -9 ∧
    summedTotalValue duplicateKrakenData "Kraken" "BTC" ≤ 0 ∧
    ExchangeAddressExists [⟨"Kraken", "BTC", 5, "Exchange"⟩] "Kraken" "BTC" = true ∧
    ExchangeAddressExists
      (SeedExchangeAccountInfo duplicateKrakenData [⟨"Kraken", "BTC", 5, "Exchange"⟩])
      "Kraken" "BTC" = true := by
  have hsum : summedTotalValue duplicateKrakenData "Kraken" "BTC" = -9 := by
    rw [summedTotalValue, duplicateKrakenData]
    simp [flattenAccountCurrencies]
    norm_num
  refine ⟨hsum, by rw [hsum]; norm_num, by decide, by decide⟩

/-- C10: SeedExchangeAccountInfo run on an empty input returns the ledger
untouched, and the reconciliation step for an existing entry whose stored
balance equals the positive fetched total performs no add, removal or
balance update - the ledger is returned unchanged. -/
theorem seedFrameNoChange (E : String) (port₀ port : Portfolio)
    (total : AccountCurrencyInfo)
    (hex : ExchangeAddressExists port E total.currencyName = true)
    (hpos : 0 < total.totalValue)
    (hbal : GetAddressBalance port E total.currencyName PortfolioAddressExchange =
      some total.totalValue) :
    SeedExchangeAccountInfo [] port₀ = port₀ ∧ seedProcessCurrency E port total = port := by
  refine ⟨rfl, ?_⟩
  have hnle : ¬ total.totalValue ≤ 0 := not_le.mpr hpos
  simp [seedProcessCurrency, hex, hnle, hbal]

/-- C10 witness: the frame property at a concrete ledger whose stored
(Kraken, BTC) balance equals the positive fetched total. -/
theorem seedFrameNoChange_witness :
    SeedExchangeAccountInfo [] [⟨"A", "B", 1, "C"⟩] = [⟨"A", "B", 1, "C"⟩] ∧
    seedProcessCurrency "Kraken" [⟨"Kraken", "BTC", 2, "Exchange"⟩] ⟨"BTC", 2, 0⟩ =
      [⟨"Kraken", "BTC", 2, "Exchange"⟩] :=
  seedFrameNoChange "Kraken" [⟨"A", "B", 1, "C"⟩] [⟨"Kraken", "BTC", 2, "Exchange"⟩]
    ⟨"BTC", 2, 0⟩ (by decide) (by decide) (by decide)

/-- Pointwise description of one collation step: the map is updated at the
entry's currency name and untouched elsewhere. -/
theorem collateStep_apply (r : String → Option AccountCurrencyInfo)
    (x : AccountCurrencyInfo) (k : String) :
    collateStep r x k =
      if k = x.currencyName then
        some (match r x.currencyName with
          | none => ⟨x.currencyName, x.totalValue, x.hold⟩
          | some i => ⟨i.currencyName, i.totalValue + x.totalValue, i.hold + x.hold⟩)
      else r k := by
  rw [collateStep]
  cases r x.currencyName <;> rfl

/-- Two adjacent collation steps commute: the sums are associative and
commutative over exact arithmetic. -/
theorem collateStep_comm (r : String → Option AccountCurrencyInfo)
    (a b : AccountCurrencyInfo) :
    collateStep (collateStep r a) b = collateStep (collateStep r b) a := by
  funext k
  simp only [collateStep_apply]
  by_cases hka : k = a.currencyName <;> by_cases hkb : k = b.currencyName
  · have hab : b.currencyName = a.currencyName := by rw [← hka, ← hkb]
    simp only [hka, hkb, hab, if_pos rfl]
    cases r a.currencyName with
    | none => simp [hab]; ring_nf; exact ⟨by ring_nf, by ring_nf⟩
    | some i => simp [hab]; exact ⟨by ring, by ring⟩
  · have hba : ¬ b.currencyName = a.currencyName := fun h => hkb (hka.trans h.symm)
    have hab : ¬ a.currencyName = b.currencyName := fun h => hba h.symm
    simp [hka, hkb, hab, hba]
  · have hab : ¬ a.currencyName = b.currencyName := fun h => hka (hkb.trans h.symm)
    have hba : ¬ b.currencyName = a.currencyName := fun h => hab h.symm
    simp [hka, hkb, hab, hba]
  · simp [hka, hkb]

/-- The triple nested collation loop equals the fold over the flattened
currency entries. -/
theorem collate_eq_foldl (l : List AccountInfo) :
    GetCollatedExchangeAccountInfoByCoin l =
      (flattenAccountCurrencies l).foldl collateStep (fun _ => none) := by
  have inner : ∀ (accs : List Account) (r : String → Option AccountCurrencyInfo),
      accs.foldl (fun result account => account.currencies.foldl collateStep result) r =
        ((accs.map (fun a => a.currencies)).flatten).foldl collateStep r := by
    intro accs
    induction accs with
    | nil => intro r; rfl
    | cons a rest ih =>
      intro r
      rw [List.foldl_cons, ih, List.map_cons, List.flatten_cons, List.foldl_append]
  have outer : ∀ (ais : List AccountInfo) (r : String → Option AccountCurrencyInfo),
      ais.foldl (fun result accounts => accounts.accounts.foldl
        (fun result account => account.currencies.foldl collateStep result) result) r =
        ((ais.map (fun ai => (ai.accounts.map (fun a => a.currencies)).flatten)).flatten).foldl
          collateStep r := by
    intro ais
    induction ais with
    | nil => intro r; rfl
    | cons ai rest ih =>
      intro r
      rw [List.foldl_cons, ih, inner ai.accounts r, List.map_cons, List.flatten_cons,
        List.foldl_append]
  rw [GetCollatedExchangeAccountInfoByCoin, flattenAccountCurrencies]
  exact outer l _

/-- Flattening respects permutation of the outer list. -/
theorem perm_flatten {α : Type} {l₁ l₂ : List (List α)} (h : l₁.Perm l₂) :
    l₁.flatten.Perm l₂.flatten := by
  induction h with
  | nil => exact List.Perm.refl _
  | cons x _ ih => simpa [List.flatten_cons] using ih.append_left x
  | swap x y l =>
    simp only [List.flatten_cons]
    rw [← List.append_assoc, ← List.append_assoc]
    exact (List.perm_append_comm).append_right _
  | trans _ _ ih₁ ih₂ => exact ih₁.trans ih₂

/-- C7: GetCollatedExchangeAccountInfoByCoin is order-independent - a
permutation of the account list yields the same map: the same currency-name
keys, and for each key the same exact summed TotalValue and Hold. -/
theorem collatedAccountInfoPermInvariant (l₁ l₂ : List AccountInfo) (k : String)
    (hperm : l₁.Perm l₂) :
    GetCollatedExchangeAccountInfoByCoin l₁ k = GetCollatedExchangeAccountInfoByCoin l₂ k := by
  rw [collate_eq_foldl, collate_eq_foldl]
  have hp : (flattenAccountCurrencies l₁).Perm (flattenAccountCurrencies l₂) := by
    rw [flattenAccountCurrencies, flattenAccountCurrencies]
    exact perm_flatten (hperm.map _)
  exact congrFun (hp.foldl_eq' (fun x _ y _ z => collateStep_comm z x y) _) k

/-- C7 witness: two concrete two-exchange lists that are permutations of
each other collate BTC identically. -/
theorem collatedAccountInfoPermInvariant_witness :
    GetCollatedExchangeAccountInfoByCoin
      [⟨"Kraken", [⟨"1", [⟨"BTC", 1, 2⟩]⟩]⟩, ⟨"Gemini", [⟨"2", [⟨"BTC", 3, 4⟩]⟩]⟩] "BTC" =
    GetCollatedExchangeAccountInfoByCoin
      [⟨"Gemini", [⟨"2", [⟨"BTC", 3, 4⟩]⟩]⟩, ⟨"Kraken", [⟨"1", [⟨"BTC", 1, 2⟩]⟩]⟩] "BTC" :=
  collatedAccountInfoPermInvariant
    [⟨"Kraken", [⟨"1", [⟨"BTC", 1, 2⟩]⟩]⟩, ⟨"Gemini", [⟨"2", [⟨"BTC", 3, 4⟩]⟩]⟩]
    [⟨"Gemini", [⟨"2", [⟨"BTC", 3, 4⟩]⟩]⟩, ⟨"Kraken", [⟨"1", [⟨"BTC", 1, 2⟩]⟩]⟩]
    "BTC" (by decide)

/-- Strict-order pair equality is componentwise equality of the currency
symbols. -/
theorem equal_true_iff (q p : CurrencyPair) :
    q.Equal p true = true ↔
      q.firstCurrency = p.firstCurrency ∧ q.secondCurrency = p.secondCurrency := by
  simp [CurrencyPair.Equal]

/-- The translation table has no fixed point: a translated symbol always
differs from its source. -/
theorem getTranslation_ne (c r : String) (h : GetTranslation c = some r) : r ≠ c := by
  rw [GetTranslation] at h
  split_ifs at h <;> simp_all <;> (subst h; decide)

/-- Membership after the guarded append comes from the old list or is the
appended pair. -/
theorem mem_addPair (l : List CurrencyPair) (x q : CurrencyPair) (h : q ∈ addPair l x) :
    q ∈ l ∨ q = x := by
  rw [addPair] at h
  split at h
  · exact Or.inl h
  · rcases List.mem_append.mp h with h | h
    · exact Or.inl h
    · exact Or.inr (List.mem_singleton.mp h)

/-- The translated variants a buildPairs invocation may add for a pair. -/
def relCandidate (p q : CurrencyPair) : Prop :=
  (∃ f, GetTranslation p.firstCurrency = some f ∧ q = NewCurrencyPair f p.secondCurrency) ∨
  (∃ f s, GetTranslation p.firstCurrency = some f ∧ GetTranslation p.secondCurrency = some s ∧
    q = NewCurrencyPair f s) ∨
  (∃ s, GetTranslation p.secondCurrency = some s ∧ q = NewCurrencyPair p.firstCurrency s)

/-- Without the original pair, buildPairs only ever adds translated
variants. -/
theorem mem_buildPairs_false (l : List CurrencyPair) (p q : CurrencyPair)
    (hq : q ∈ buildPairs l p false) : q ∈ l ∨ relCandidate p q := by
  rw [buildPairs] at hq
  cases hf : GetTranslation p.firstCurrency <;> cases hs : GetTranslation p.secondCurrency <;>
    simp only [hf, hs, Bool.false_eq_true, if_false] at hq
  · exact Or.inl hq
  · rcases mem_addPair _ _ _ hq with hq | rfl
    · exact Or.inl hq
    · exact Or.inr (Or.inr (Or.inr ⟨_, hs, rfl⟩))
  · rcases mem_addPair _ _ _ hq with hq | rfl
    · exact Or.inl hq
    · exact Or.inr (Or.inl ⟨_, hf, rfl⟩)
  · rcases mem_addPair _ _ _ hq with hq | rfl
    · rcases mem_addPair _ _ _ hq with hq | rfl
      · rcases mem_addPair _ _ _ hq with hq | rfl
        · exact Or.inl hq
        · exact Or.inr (Or.inl ⟨_, hf, rfl⟩)
      · exact Or.inr (Or.inr (Or.inl ⟨_, _, hf, hs, rfl⟩))
    · exact Or.inr (Or.inr (Or.inr ⟨_, hs, rfl⟩))

/-- C2 (amended): for every pair P, every member of
GetRelatableCurrencies(P, false, false) is unconditionally free of the
stablecoin symbol USDT; and no member equals P itself unless P's two
currencies are translations of each other (as BTC/XBT are), the one
configuration in which the translated-translated branch of the swapped pair
rebuilds P. -/
theorem relatableExcludesUSDTAndSelf (p q : CurrencyPair)
    (hq : q ∈ GetRelatableCurrencies p false false) :
    Pair.ContainsCurrency q "USDT" = false ∧
    (¬(GetTranslation p.firstCurrency = some p.secondCurrency ∧
       GetTranslation p.secondCurrency = some p.firstCurrency) →
      q.Equal p true = false) := by
  rw [GetRelatableCurrencies] at hq
  simp only [Bool.not_false, if_pos, Pair.RemovePairsByFilter, List.mem_filter] at hq
  obtain ⟨hmem, husdt⟩ := hq
  constructor
  · rw [Bool.not_eq_true'] at husdt
    exact husdt
  · intro hmut
    rw [Bool.eq_false_iff]
    intro hEq
    rw [equal_true_iff] at hEq
    rcases mem_buildPairs_false _ _ _ hmem with hmem1 | hcand
    · rcases mem_buildPairs_false _ _ _ hmem1 with hmem0 | hcand
      · cases hmem0
      · rcases hcand with ⟨f, hf, rfl⟩ | ⟨f, s, hf, hs, rfl⟩ | ⟨s, hs, rfl⟩
        · exact getTranslation_ne _ _ hf (by simpa [NewCurrencyPair] using hEq.1)
        · exact getTranslation_ne _ _ hf (by simpa [NewCurrencyPair] using hEq.1)
        · exact getTranslation_ne _ _ hs (by simpa [NewCurrencyPair] using hEq.2)
    · rcases hcand with ⟨ts, hts, rfl⟩ | ⟨ts, tf, hts, htf, rfl⟩ | ⟨tf, htf, rfl⟩
      · simp only [CurrencyPair.Swap, NewCurrencyPair] at hts hEq
        have h1 : ts = p.firstCurrency := hEq.1
        have h2 : p.firstCurrency = p.secondCurrency := hEq.2
        exact getTranslation_ne _ _ hts (h1.trans h2)
      · simp only [CurrencyPair.Swap, NewCurrencyPair] at hts htf hEq
        exact hmut ⟨hEq.2 ▸ htf, hEq.1 ▸ hts⟩
      · simp only [CurrencyPair.Swap, NewCurrencyPair] at htf hEq
        have h1 : p.secondCurrency = p.firstCurrency := hEq.1
        have h2 : tf = p.secondCurrency := hEq.2
        exact getTranslation_ne _ _ htf (h2.trans h1)

/-- C2 witness: the USDT-exclusion and self-exclusion at the non-mutual
pair (ETH, BTC) with its generated member (XETH, BTC), and the
unconditional USDT-exclusion also at the mutually-translating pair
(USD, USDT) with its surviving member (USD, USD). -/
theorem relatableExcludesUSDTAndSelf_witness :
    (Pair.ContainsCurrency (NewCurrencyPair "XETH" "BTC") "USDT" = false ∧
     (NewCurrencyPair "XETH" "BTC").Equal ⟨"ETH", "BTC", "-"⟩ true = false) ∧
    Pair.ContainsCurrency (NewCurrencyPair "USD" "USD") "USDT" = false :=
  ⟨⟨(relatableExcludesUSDTAndSelf ⟨"ETH", "BTC", "-"⟩ (NewCurrencyPair "XETH" "BTC")
      (by decide)).1,
    (relatableExcludesUSDTAndSelf ⟨"ETH", "BTC", "-"⟩ (NewCurrencyPair "XETH" "BTC")
      (by decide)).2 (by decide)⟩,
   (relatableExcludesUSDTAndSelf (NewCurrencyPair "USD" "USDT") (NewCurrencyPair "USD" "USD")
      (by decide)).1⟩

/-- C2 counterexample: for the mutually-translating pair (BTC, XBT) the
result of GetRelatableCurrencies(P, false, false) does contain P itself,
refuting the unconditional exclusion. -/
theorem relatableContainsSelfOnMutualTranslation :
    NewCurrencyPair "BTC" "XBT" ∈
      GetRelatableCurrencies (NewCurrencyPair "BTC" "XBT") false false ∧
    (NewCurrencyPair "BTC" "XBT").Equal (NewCurrencyPair "BTC" "XBT") true = true := by
  decide

/-- Strict pair equality is reflexive. -/
theorem equal_refl (p : CurrencyPair) : p.Equal p true = true := by
  simp [CurrencyPair.Equal]

/-- The guarded append leaves the list containing the appended pair under
strict equality, whether it appended or found a duplicate. -/
theorem contains_addPair_self (l : List CurrencyPair) (x : CurrencyPair) :
    Pair.Contains (addPair l x) x true = true := by
  rw [addPair]
  split
  · next h => exact h
  · simp [Pair.Contains, List.any_append, equal_refl]

/-- The guarded append preserves containment. -/
theorem contains_addPair_mono (l : List CurrencyPair) (x q : CurrencyPair) (e : Bool)
    (h : Pair.Contains l q e = true) : Pair.Contains (addPair l x) q e = true := by
  rw [addPair]
  split
  · exact h
  · simp only [Pair.Contains, List.any_append, Bool.or_eq_true]
    exact Or.inl h

/-- buildPairs preserves containment. -/
theorem contains_buildPairs_mono (l : List CurrencyPair) (p q : CurrencyPair)
    (incOrig e : Bool) (h : Pair.Contains l q e = true) :
    Pair.Contains (buildPairs l p incOrig) q e = true := by
  rw [buildPairs]
  cases hf : GetTranslation p.firstCurrency <;> cases hs : GetTranslation p.secondCurrency <;>
    cases incOrig <;>
    simp only [hf, hs, Bool.false_eq_true, if_false, if_true] <;>
    (repeat' first | exact h | apply contains_addPair_mono)

/-- With the original requested, buildPairs yields a list containing the
original pair under strict equality. -/
theorem contains_buildPairs_orig (l : List CurrencyPair) (p : CurrencyPair) :
    Pair.Contains (buildPairs l p true) p true = true := by
  rw [buildPairs]
  cases hf : GetTranslation p.firstCurrency <;> cases hs : GetTranslation p.secondCurrency <;>
    simp only [hf, hs, if_true] <;>
    (repeat' first | exact contains_addPair_self l p | apply contains_addPair_mono)

/-- A pair strictly contained in a list and free of USDT stays contained
after the stablecoin filter. -/
theorem contains_filter_of_contains (l : List CurrencyPair) (x : CurrencyPair)
    (h : Pair.Contains l x true = true) (hx : Pair.ContainsCurrency x "USDT" = false) :
    Pair.Contains (Pair.RemovePairsByFilter l "USDT") x true = true := by
  rw [Pair.Contains, List.any_eq_true] at h ⊢
  obtain ⟨y, hy, hyx⟩ := h
  refine ⟨y, ?_, hyx⟩
  rw [Pair.RemovePairsByFilter, List.mem_filter]
  refine ⟨hy, ?_⟩
  obtain ⟨h1, h2⟩ := (equal_true_iff y x).mp hyx
  have : Pair.ContainsCurrency y "USDT" = Pair.ContainsCurrency x "USDT" := by
    rw [Pair.ContainsCurrency, Pair.ContainsCurrency, h1, h2]
  rw [this, hx]
  rfl

/-- C9: with the original requested, GetRelatableCurrencies keeps both
orientations of a pair of distinct currencies - the pair itself and its
swap are each contained under strict-order equality, the only mode the
internal dedup uses (subject to the USDT filter hypothesis when stablecoin
pairs are excluded). -/
theorem relatableKeepsBothOrientations (p : CurrencyPair) (incUSDT : Bool)
    (_hne : p.firstCurrency ≠ p.secondCurrency)
    (husdt : incUSDT = false →
      p.firstCurrency ≠ "USDT" ∧ p.secondCurrency ≠ "USDT") :
    Pair.Contains (GetRelatableCurrencies p true incUSDT) p true = true ∧
    Pair.Contains (GetRelatableCurrencies p true incUSDT) p.Swap true = true := by
  have h1 : Pair.Contains (buildPairs (buildPairs [] p true) p.Swap true) p true = true :=
    contains_buildPairs_mono _ _ _ _ _ (contains_buildPairs_orig [] p)
  have h2 : Pair.Contains (buildPairs (buildPairs [] p true) p.Swap true) p.Swap true = true :=
    contains_buildPairs_orig (buildPairs [] p true) p.Swap
  rw [GetRelatableCurrencies]
  cases incUSDT with
  | true => exact ⟨h1, h2⟩
  | false =>
    obtain ⟨hu1, hu2⟩ := husdt rfl
    simp only [Bool.not_false, if_pos]
    constructor
    · refine contains_filter_of_contains _ _ h1 ?_
      simp [Pair.ContainsCurrency, hu1, hu2]
    · refine contains_filter_of_contains _ _ h2 ?_
      simp [Pair.ContainsCurrency, CurrencyPair.Swap, hu1, hu2]

/-- C9 witness: both orientations of (ETH, BTC) survive in
GetRelatableCurrencies((ETH, BTC), true, false). -/
theorem relatableKeepsBothOrientations_witness :
    Pair.Contains (GetRelatableCurrencies ⟨"ETH", "BTC", "-"⟩ true false)
      ⟨"ETH", "BTC", "-"⟩ true = true ∧
    Pair.Contains (GetRelatableCurrencies ⟨"ETH", "BTC", "-"⟩ true false)
      (CurrencyPair.Swap ⟨"ETH", "BTC", "-"⟩) true = true :=
  relatableKeepsBothOrientations ⟨"ETH", "BTC", "-"⟩ false (by decide)
    (fun _ => ⟨by decide, by decide⟩)
